import Mathlib

/-
Shallow embedding of the u8scan library core (src/include/u8scan/u8scan.h).

Buffers are modelled as lists of byte values (List Nat); std::string indexing
through static_cast<unsigned char> becomes getD with default 0.  The C++
iterator loops guard on iterator inequality with the end iterator, which is
positional equality of byte offsets; we guard on pos < input.length, which
agrees with pos ≠ input.length on every reachable position because the
traversal never overshoots the buffer end (proved below), and makes the
recursions well-founded.
-/

namespace u8scan

/-- CharInfo mirrors u8scan::CharInfo (u8scan.h lines 85-100). -/
structure CharInfo where
  start_pos : Nat
  byte_count : Nat
  codepoint : Nat
  is_ascii : Bool
  is_valid_utf8 : Bool
  is_bom : Bool
deriving Repr, DecidableEq

/-- Default constructor values of CharInfo (u8scan.h line 93). -/
instance : Inhabited CharInfo :=
  ⟨{ start_pos := 0, byte_count := 1, codepoint := 0,
     is_ascii := true, is_valid_utf8 := true, is_bom := false }⟩

/-- BOMInfo mirrors u8scan::BOMInfo (found flag and size). -/
structure BOMInfo where
  found : Bool
  size : Nat
deriving Repr, DecidableEq

/-- Reading byte pos of the buffer, as unsigned char; out of range reads
return 0 but are never semantically relevant (the code guards them). -/
def byteAt (input : List Nat) (pos : Nat) : Nat :=
  input.getD pos 0

/-- Continuation bytes input[pos+1] .. input[pos+bc-1] that the decoding loop
of extract_char_info visits (u8scan.h lines 331-340 and 346-349). -/
def contBytes (input : List Nat) (pos bc : Nat) : List Nat :=
  (List.range (bc - 1)).map (fun i => byteAt input (pos + 1 + i))

/-- Validating continuation-byte loop of extract_char_info (u8scan.h lines
331-340): each byte must match 10xxxxxx; on the first mismatch the partial
accumulator is discarded (none); otherwise the codepoint is accumulated via
(acc << 6) | (byte & 0x3F). -/
def foldCont : Nat → List Nat → Option Nat
  | acc, [] => some acc
  | acc, b :: rest =>
    if b &&& 0xC0 = 0x80 then foldCont ((acc <<< 6) ||| (b &&& 0x3F)) rest
    else none

/-- Non-validating accumulation loop of extract_char_info (u8scan.h lines
346-349). -/
def foldAll : Nat → List Nat → Nat
  | acc, [] => acc
  | acc, b :: rest => foldAll ((acc <<< 6) ||| (b &&& 0x3F)) rest

/-- Multi-byte tail of extract_char_info after the expected byte count bc has
been read off the lead byte (u8scan.h lines 322-356): bound check, optional
continuation-byte validation, codepoint accumulation, with the single-byte
invalid fallback on any failure. -/
def multiByteInfo (input : List Nat) (pos : Nat) (validate : Bool) (bc : Nat) :
    CharInfo :=
  if validate then
    if input.length < pos + bc then
      { start_pos := pos, byte_count := 1, codepoint := byteAt input pos,
        is_ascii := false, is_valid_utf8 := false, is_bom := false }
    else
      match foldCont (byteAt input pos &&& ((1 <<< (7 - bc)) - 1))
          (contBytes input pos bc) with
      | some cp =>
        { start_pos := pos, byte_count := bc, codepoint := cp,
          is_ascii := false, is_valid_utf8 := true, is_bom := false }
      | none =>
        { start_pos := pos, byte_count := 1, codepoint := byteAt input pos,
          is_ascii := false, is_valid_utf8 := false, is_bom := false }
  else
    if pos + bc ≤ input.length then
      { start_pos := pos, byte_count := bc,
        codepoint := foldAll (byteAt input pos &&& ((1 <<< (7 - bc)) - 1))
          (contBytes input pos bc),
        is_ascii := false, is_valid_utf8 := true, is_bom := false }
    else
      { start_pos := pos, byte_count := 1, codepoint := byteAt input pos,
        is_ascii := false, is_valid_utf8 := false, is_bom := false }

/-- Translation of u8scan::details::extract_char_info (u8scan.h lines
288-360): the lead-byte if-else-if chain selecting the expected length 2, 3
or 4, with ASCII, end-of-buffer and invalid-lead-byte single-byte cases. -/
def extract_char_info (input : List Nat) (pos : Nat) (utf8_mode validate : Bool) :
    CharInfo :=
  if input.length ≤ pos then
    { start_pos := pos, byte_count := 1, codepoint := 0,
      is_ascii := true, is_valid_utf8 := false, is_bom := false }
  else if utf8_mode = false ∨ byteAt input pos < 0x80 then
    { start_pos := pos, byte_count := 1, codepoint := byteAt input pos,
      is_ascii := true, is_valid_utf8 := true, is_bom := false }
  else if byteAt input pos &&& 0xE0 = 0xC0 then multiByteInfo input pos validate 2
  else if byteAt input pos &&& 0xF0 = 0xE0 then multiByteInfo input pos validate 3
  else if byteAt input pos &&& 0xF8 = 0xF0 then multiByteInfo input pos validate 4
  else
    { start_pos := pos, byte_count := 1, codepoint := byteAt input pos,
      is_ascii := false, is_valid_utf8 := false, is_bom := false }

/-- Translation of u8scan::details::detect_bom (u8scan.h lines 365-375). -/
def detect_bom (input : List Nat) : BOMInfo :=
  if 3 ≤ input.length ∧ byteAt input 0 = 0xEF ∧ byteAt input 1 = 0xBB ∧
      byteAt input 2 = 0xBF then
    { found := true, size := 3 }
  else
    { found := false, size := 0 }

/-- Start offset after optional BOM skipping, the expression
"bom_info.found ? 3 : 0" used by scan_utf8, length, at, empty, front, back. -/
def bomStart (input : List Nat) : Nat :=
  if (detect_bom input).found then 3 else 0

/-- ScanAction mirrors u8scan::ScanAction. -/
inductive ScanAction where
  | copy_to_output
  | replace
  | ignore
  | stop_scanning
deriving Repr, DecidableEq

/-- ProcessResult mirrors u8scan::ProcessResult; the replacement is a byte
sequence. -/
structure ProcessResult where
  action : ScanAction
  replacement : List Nat

/-- Processor callbacks receive the CharInfo and a view of the input starting
at the character (the C++ passes input.data() + pos). -/
def Processor : Type :=
  CharInfo → List Nat → ProcessResult

/-- Main scanning loop of scan_utf8 (u8scan.h lines 405-425). -/
def scan_utf8_loop (input : List Nat) (proc : Processor) (pos : Nat)
    (acc : List Nat) : List Nat :=
  if _h : pos < input.length then
    let ci := extract_char_info input pos true true
    let pr := proc ci (input.drop pos)
    match pr.action with
    | .stop_scanning => acc
    | .copy_to_output =>
      scan_utf8_loop input proc (pos + ci.byte_count)
        (acc ++ (input.drop pos).take ci.byte_count)
    | .replace =>
      scan_utf8_loop input proc (pos + ci.byte_count) (acc ++ pr.replacement)
    | .ignore =>
      scan_utf8_loop input proc (pos + ci.byte_count) acc
  else acc
termination_by input.length - pos
decreasing_by
all_goals
  have h1 : 1 ≤ (extract_char_info input pos true true).byte_count := by
    unfold extract_char_info multiByteInfo
    repeat' (first | split | dsimp only)
    all_goals omega
  omega

/-- Translation of u8scan::scan_utf8 (u8scan.h lines 399-428): detect and
skip a leading BOM, then scan character by character. -/
def scan_utf8 (input : List Nat) (proc : Processor) : List Nat :=
  scan_utf8_loop input proc (bomStart input) []

/-- Loop of scan_ascii (u8scan.h lines 433-461): every byte is one character.
The C++ stores static_cast<uint32_t>(input[pos]) in codepoint, whose value
for bytes at and above 0x80 depends on the signedness of char; the claims
proved below never look at this field, only at the bytes appended to the
output, which are the raw input bytes. -/
def scan_ascii_loop (input : List Nat) (proc : Processor) (pos : Nat)
    (acc : List Nat) : List Nat :=
  if pos < input.length then
    let ci : CharInfo :=
      { start_pos := pos, byte_count := 1, codepoint := byteAt input pos,
        is_ascii := true, is_valid_utf8 := true, is_bom := false }
    let pr := proc ci (input.drop pos)
    match pr.action with
    | .stop_scanning => acc
    | .copy_to_output =>
      scan_ascii_loop input proc (pos + 1) (acc ++ [byteAt input pos])
    | .replace =>
      scan_ascii_loop input proc (pos + 1) (acc ++ pr.replacement)
    | .ignore =>
      scan_ascii_loop input proc (pos + 1) acc
  else acc
termination_by input.length - pos

/-- Translation of u8scan::scan_ascii (u8scan.h lines 433-461); no BOM
detection of any kind. -/
def scan_ascii (input : List Nat) (proc : Processor) : List Nat :=
  scan_ascii_loop input proc 0 []

/-- Per-character callback that always answers COPY_TO_OUTPUT. -/
def alwaysCopy : Processor :=
  fun _ _ => { action := .copy_to_output, replacement := [] }

/-- Character count of a range traversal: the std::distance walk that
CharRange::size performs from a byte position to the end of the buffer
(u8scan.h lines 273-275). -/
def count_chars (input : List Nat) (u v : Bool) (pos : Nat) : Nat :=
  if _h : pos < input.length then
    count_chars input u v (pos + (extract_char_info input pos u v).byte_count) + 1
  else 0
termination_by input.length - pos
decreasing_by
  have h1 : 1 ≤ (extract_char_info input pos u v).byte_count := by
    unfold extract_char_info multiByteInfo
    repeat' (first | split | dsimp only)
    all_goals omega
  omega

/-- Final byte offset of the traversal that starts at pos and repeatedly
advances by the decoded byte_count until the end of the buffer (the position
walk shared by CharIterator::operator++ based loops). -/
def scan_end (input : List Nat) (u v : Bool) (pos : Nat) : Nat :=
  if _h : pos < input.length then
    scan_end input u v (pos + (extract_char_info input pos u v).byte_count)
  else pos
termination_by input.length - pos
decreasing_by
  have h1 : 1 ≤ (extract_char_info input pos u v).byte_count := by
    unfold extract_char_info multiByteInfo
    repeat' (first | split | dsimp only)
    all_goals omega
  omega

/-- Iterator advance loop of u8scan::at (u8scan.h lines 741-743): advance at
most n characters, stopping early at the end of the range. -/
def advance_n (input : List Nat) (u v : Bool) (pos : Nat) : Nat → Nat
  | 0 => pos
  | n + 1 =>
    if pos < input.length then
      advance_n input u v (pos + (extract_char_info input pos u v).byte_count) n
    else pos

/-- Translation of u8scan::length (u8scan.h lines 705-712): BOM-adjusted
character count of the whole buffer. -/
def length (input : List Nat) (utf8_mode validate : Bool) : Nat :=
  count_chars input utf8_mode validate (bomStart input)

/-- Translation of u8scan::at (u8scan.h lines 732-750); none models the
std::out_of_range exception. -/
def at' (input : List Nat) (index : Nat) (utf8_mode validate : Bool) :
    Option CharInfo :=
  if advance_n input utf8_mode validate (bomStart input) index = input.length then
    none
  else
    some (extract_char_info input
      (advance_n input utf8_mode validate (bomStart input) index) utf8_mode validate)

/-- Translation of u8scan::empty (u8scan.h lines 772-779): the BOM-adjusted
range is empty iff its start position has reached the end position. -/
def empty (input : List Nat) (utf8_mode validate : Bool) : Bool :=
  decide (input.length ≤ bomStart input)

/-- Translation of u8scan::front (u8scan.h lines 801-814). -/
def front (input : List Nat) (utf8_mode validate : Bool) : Option CharInfo :=
  if bomStart input = input.length then none
  else some (extract_char_info input (bomStart input) utf8_mode validate)

/-- Traversal loop of u8scan::back (u8scan.h lines 846-849), remembering the
last decoded character; cur starts as the default CharInfo exactly as the
local variable last_char does in the C++. -/
def back_loop (input : List Nat) (u v : Bool) (pos : Nat) (cur : CharInfo) :
    CharInfo :=
  if _h : pos < input.length then
    back_loop input u v (pos + (extract_char_info input pos u v).byte_count)
      (extract_char_info input pos u v)
  else cur
termination_by input.length - pos
decreasing_by
  have h1 : 1 ≤ (extract_char_info input pos u v).byte_count := by
    unfold extract_char_info multiByteInfo
    repeat' (first | split | dsimp only)
    all_goals omega
  omega

/-- Translation of u8scan::back (u8scan.h lines 832-852). -/
def back (input : List Nat) (utf8_mode validate : Bool) : Option CharInfo :=
  if bomStart input = input.length then none
  else some (back_loop input utf8_mode validate (bomStart input) default)

/-- Codepoint reconstruction written from the specification text: the leading
byte keeps its low (7 - byte_length) bits as the initial accumulator, and
each continuation byte contributes its low 6 bits, most significant first,
via (acc << 6) | (byte & 0x3F). -/
def utf8_fold_spec (fb : Nat) (bc : Nat) (cont : List Nat) : Nat :=
  cont.foldl (fun acc b => (acc <<< 6) ||| (b &&& 0x3F)) (fb % 2 ^ (7 - bc))

/-- Predicate for a well-formed 3-byte UTF-8 character block: a 1110xxxx lead
byte followed by two 10xxxxxx continuation bytes. -/
def isThreeByteChar (blk : List Nat) : Prop :=
  blk.length = 3 ∧ byteAt blk 0 &&& 0xF0 = 0xE0 ∧
    byteAt blk 1 &&& 0xC0 = 0x80 ∧ byteAt blk 2 &&& 0xC0 = 0x80

instance (blk : List Nat) : Decidable (isThreeByteChar blk) := by
  unfold isThreeByteChar
  infer_instance

/-- Byte count of every decoded unit is at least 1. -/
theorem one_le_byte_count (input : List Nat) (pos : Nat) (u v : Bool) :
    1 ≤ (extract_char_info input pos u v).byte_count := by
  unfold extract_char_info multiByteInfo
  repeat' (first | split | dsimp only)
  all_goals omega

/-- One decode step never advances past the end of the buffer. -/
theorem step_le (input : List Nat) (pos : Nat) (u v : Bool)
    (h : pos < input.length) :
    pos + (extract_char_info input pos u v).byte_count ≤ input.length := by
  unfold extract_char_info multiByteInfo
  repeat' (first | split | dsimp only)
  all_goals omega

/-- Start position of the decoded unit is the requested offset. -/
theorem start_pos_eq (input : List Nat) (pos : Nat) (u v : Bool) :
    (extract_char_info input pos u v).start_pos = pos := by
  unfold extract_char_info multiByteInfo
  repeat' (first | split | dsimp only)

/-- Invalid units always fall back to a single byte. -/
theorem invalid_byte_count (input : List Nat) (pos : Nat) (u v : Bool)
    (h : (extract_char_info input pos u v).is_valid_utf8 = false) :
    (extract_char_info input pos u v).byte_count = 1 := by
  unfold extract_char_info multiByteInfo at *
  repeat' (first | split at h | dsimp only at h | split | dsimp only)
  all_goals simp_all

/-- Valid units fit inside the buffer. -/
theorem valid_in_bounds (input : List Nat) (pos : Nat) (u v : Bool)
    (h : (extract_char_info input pos u v).is_valid_utf8 = true) :
    pos + (extract_char_info input pos u v).byte_count ≤ input.length := by
  unfold extract_char_info multiByteInfo at *
  repeat' (first | split at h | dsimp only at h | split | dsimp only)
  all_goals simp_all
  all_goals omega

/-- Traversal by successive byte counts lands exactly on the buffer length. -/
theorem scan_end_eq (input : List Nat) (u v : Bool) :
    ∀ n pos, input.length - pos ≤ n → pos ≤ input.length →
      scan_end input u v pos = input.length := by
  intro n
  induction n with
  | zero =>
    intro pos h hle
    unfold scan_end
    rw [dif_neg (by omega)]
    omega
  | succ n ih =>
    intro pos h hle
    unfold scan_end
    by_cases hp : pos < input.length
    · rw [dif_pos hp]
      have hs := step_le input pos u v hp
      have hb := one_le_byte_count input pos u v
      exact ih _ (by omega) hs
    · rw [dif_neg hp]
      omega

/-- Advancing by the full character count of a suffix reaches the end. -/
theorem advance_n_count (input : List Nat) (u v : Bool) :
    ∀ n pos, input.length - pos ≤ n → pos ≤ input.length →
      advance_n input u v pos (count_chars input u v pos) = input.length := by
  intro n
  induction n with
  | zero =>
    intro pos h hle
    unfold count_chars
    rw [dif_neg (by omega)]
    unfold advance_n
    omega
  | succ n ih =>
    intro pos h hle
    by_cases hp : pos < input.length
    · have hs := step_le input pos u v hp
      have hb := one_le_byte_count input pos u v
      unfold count_chars
      rw [dif_pos hp]
      unfold advance_n
      rw [if_pos hp]
      exact ih _ (by omega) hs
    · unfold count_chars
      rw [dif_neg hp]
      unfold advance_n
      omega

/-- BOM detection succeeds only on buffers of length at least 3. -/
theorem bomStart_le (input : List Nat) : bomStart input ≤ input.length := by
  unfold bomStart
  split
  · rename_i h
    unfold detect_bom at h
    split at h
    · omega
    · simp at h
  · omega

/-- Scanning a suffix with the always-copy callback appends exactly that
suffix. -/
theorem scan_utf8_loop_copy (input : List Nat) :
    ∀ n pos acc, input.length - pos ≤ n →
      scan_utf8_loop input alwaysCopy pos acc = acc ++ input.drop pos := by
  intro n
  induction n with
  | zero =>
    intro pos acc h
    unfold scan_utf8_loop
    rw [dif_neg (by omega), List.drop_eq_nil_of_le (by omega), List.append_nil]
  | succ n ih =>
    intro pos acc h
    unfold scan_utf8_loop
    by_cases hp : pos < input.length
    · rw [dif_pos hp]
      show scan_utf8_loop input alwaysCopy
          (pos + (extract_char_info input pos true true).byte_count)
          (acc ++ (input.drop pos).take (extract_char_info input pos true true).byte_count) =
        acc ++ input.drop pos
      have hb := one_le_byte_count input pos true true
      rw [ih _ _ (by omega), List.append_assoc]
      congr 1
      conv_rhs => rw [← List.take_append_drop
        (extract_char_info input pos true true).byte_count (input.drop pos)]
      rw [List.drop_drop]
    · rw [dif_neg hp, List.drop_eq_nil_of_le (by omega), List.append_nil]

/-- Scanning a suffix with the always-copy callback in ASCII mode appends
exactly that suffix. -/
theorem scan_ascii_loop_copy (input : List Nat) :
    ∀ n pos acc, input.length - pos ≤ n →
      scan_ascii_loop input alwaysCopy pos acc = acc ++ input.drop pos := by
  intro n
  induction n with
  | zero =>
    intro pos acc h
    unfold scan_ascii_loop
    rw [if_neg (by omega), List.drop_eq_nil_of_le (by omega), List.append_nil]
  | succ n ih =>
    intro pos acc h
    unfold scan_ascii_loop
    by_cases hp : pos < input.length
    · rw [if_pos hp]
      show scan_ascii_loop input alwaysCopy (pos + 1) (acc ++ [byteAt input pos]) =
        acc ++ input.drop pos
      rw [ih _ _ (by omega), List.append_assoc]
      congr 1
      rw [List.drop_eq_getElem_cons hp]
      unfold byteAt
      rw [List.getD_eq_getElem input 0 hp]
      rfl
    · rw [if_neg hp, List.drop_eq_nil_of_le (by omega), List.append_nil]

/-- C1 counterexample: on a buffer that is exactly the 3-byte BOM, scan_utf8
with the always-Copy callback returns the empty buffer, not the input, because
the BOM is skipped before the scanning loop and never copied to the output. -/
theorem scan_utf8_bom_dropped :
    scan_utf8 [0xEF, 0xBB, 0xBF] alwaysCopy ≠ [0xEF, 0xBB, 0xBF] := by
  have h : scan_utf8 [0xEF, 0xBB, 0xBF] alwaysCopy = [] := by
    unfold scan_utf8
    have hb : bomStart [0xEF, 0xBB, 0xBF] = 3 := rfl
    rw [hb]
    unfold scan_utf8_loop
    rw [dif_neg (by norm_num)]
  rw [h]
  simp

/-- C1 (amended): for every input buffer that does not start with the UTF-8
BOM, running scan_utf8 with a per-character callback that always returns the
Copy-as-is decision produces an output buffer identical to the input buffer,
byte for byte; when the input starts with a BOM the output is the input with
the 3 BOM bytes removed. -/
theorem scan_utf8_copy_roundtrip :
    ∀ (input : List Nat), (detect_bom input).found = false →
      scan_utf8 input alwaysCopy = input := by
  intro input h
  unfold scan_utf8
  have hb : bomStart input = 0 := by
    unfold bomStart
    rw [h]
    rfl
  rw [hb]
  simpa using scan_utf8_loop_copy input input.length 0 [] (by omega)

/-- Witness for the amended C1 at a concrete BOM-free input. -/
theorem scan_utf8_copy_roundtrip_witness :
    scan_utf8 [0x48, 0x69] alwaysCopy = [0x48, 0x69] :=
  scan_utf8_copy_roundtrip [0x48, 0x69] (by decide)

/-- C9: scan_ascii with the always-Copy callback returns every input buffer
unchanged byte for byte, including any leading BOM bytes, since it performs
no BOM detection or skipping. -/
theorem scan_ascii_copy_roundtrip :
    ∀ (input : List Nat), scan_ascii input alwaysCopy = input := by
  intro input
  unfold scan_ascii
  simpa using scan_ascii_loop_copy input input.length 0 [] (by omega)

/-- C2: one decode step always returns byte_count at least 1, and the
traversal that starts at offset 0 and repeatedly advances by the returned
byte_count reaches exactly offset input.length, for any buffer content and
any mode and validation flags. -/
theorem forward_progress_traversal :
    ∀ (input : List Nat) (u v : Bool),
      (∀ pos, 1 ≤ (extract_char_info input pos u v).byte_count) ∧
      scan_end input u v 0 = input.length := by
  intro input u v
  exact ⟨fun pos => one_le_byte_count input pos u v,
    scan_end_eq input u v input.length 0 (by omega) (by omega)⟩

/-- C3: every decoded unit satisfies start_pos + byte_count ≤ buffer length
when is_valid_utf8 is true, and byte_count = 1 when is_valid_utf8 is false,
for any buffer, offset, mode and validation flags; hence the decoder never
needs a byte at an index at or beyond the buffer length. -/
theorem decoder_bounds_invariant :
    ∀ (input : List Nat) (pos : Nat) (u v : Bool),
      ((extract_char_info input pos u v).is_valid_utf8 = true →
        (extract_char_info input pos u v).start_pos +
          (extract_char_info input pos u v).byte_count ≤ input.length) ∧
      ((extract_char_info input pos u v).is_valid_utf8 = false →
        (extract_char_info input pos u v).byte_count = 1) := by
  intro input pos u v
  constructor
  · intro h
    rw [start_pos_eq]
    exact valid_in_bounds input pos u v h
  · exact invalid_byte_count input pos u v

/-- Witness for C3: the valid branch at a one-byte ASCII buffer, and the
invalid branch at the empty buffer. -/
theorem decoder_bounds_invariant_witness :
    (extract_char_info [0x48] 0 true true).start_pos +
      (extract_char_info [0x48] 0 true true).byte_count ≤
        ([0x48] : List Nat).length ∧
    (extract_char_info ([] : List Nat) 0 true true).byte_count = 1 :=
  ⟨(decoder_bounds_invariant [0x48] 0 true true).1 (by decide),
   (decoder_bounds_invariant [] 0 true true).2 (by decide)⟩

/-- C5: front, back and at index 0 signal out-of-bounds (none) on the empty
buffer and on the BOM-only buffer, and at index length(buf) signals
out-of-bounds on every buffer; the failure is a distinguished none, never a
default CharInfo. -/
theorem access_boundary_failures :
    (∀ u v, front ([] : List Nat) u v = none ∧ back ([] : List Nat) u v = none ∧
      at' ([] : List Nat) 0 u v = none) ∧
    (∀ u v, front [0xEF, 0xBB, 0xBF] u v = none ∧
      back [0xEF, 0xBB, 0xBF] u v = none ∧ at' [0xEF, 0xBB, 0xBF] 0 u v = none) ∧
    (∀ (input : List Nat) (u v : Bool), at' input (length input u v) u v = none) := by
  refine ⟨fun u v => ⟨rfl, rfl, rfl⟩, fun u v => ⟨rfl, rfl, rfl⟩, ?_⟩
  intro input u v
  unfold at' length
  have h1 := bomStart_le input
  have h2 := advance_n_count input u v (input.length - bomStart input)
    (bomStart input) (by omega) h1
  rw [if_pos h2]

/-- C10: front and at index 0 agree on every buffer and every flag choice:
they fail together, and on success return field-by-field equal CharInfo. -/
theorem front_eq_at_zero :
    ∀ (input : List Nat) (u v : Bool), front input u v = at' input 0 u v := by
  intro input u v
  rfl

/-- C8: BOM detection returns found with size 3 exactly when the first three
bytes are 0xEF 0xBB 0xBF, and found=false with size 0 in every other case,
including buffers shorter than 3 bytes; it is a total function. -/
theorem detect_bom_spec :
    ∀ (input : List Nat),
      detect_bom input =
        if input.take 3 = [0xEF, 0xBB, 0xBF] then ⟨true, 3⟩ else ⟨false, 0⟩ := by
  intro input
  match input with
  | [] => rfl
  | [a] =>
    simp [detect_bom, byteAt]
  | [a, b] =>
    simp [detect_bom, byteAt]
  | a :: b :: c :: rest =>
    simp only [detect_bom, byteAt, List.take, List.getD, List.getElem?_cons_zero,
      List.getElem?_cons_succ, Option.getD_some, List.length_cons]
    split_ifs with h1 h2 h2 <;> simp_all

/-- Byte reads shift across a prefix: reading at an offset past the prefix
reads the suffix. -/
theorem byteAt_append_right (pre B : List Nat) (i : Nat) :
    byteAt (pre ++ B) (pre.length + i) = byteAt B i := by
  unfold byteAt
  rw [List.getD_append_right pre B 0 _ (Nat.le_add_right _ _)]
  congr 1
  omega

/-- Byte reads inside the prefix see the prefix. -/
theorem byteAt_append_left (pre B : List Nat) (i : Nat) (h : i < pre.length) :
    byteAt (pre ++ B) i = byteAt pre i := by
  unfold byteAt
  exact List.getD_append pre B 0 i h

/-- Continuation-byte views shift across a prefix. -/
theorem contBytes_shift (pre B : List Nat) (pos bc : Nat) :
    contBytes (pre ++ B) (pre.length + pos) bc = contBytes B pos bc := by
  unfold contBytes
  apply List.map_congr_left
  intro i _
  have e : pre.length + pos + 1 + i = pre.length + (pos + 1 + i) := by omega
  rw [e, byteAt_append_right]

/-- Multi-byte decoding shifts across a prefix, moving only start_pos. -/
theorem multiByteInfo_shift (pre B : List Nat) (pos : Nat) (v : Bool) (bc : Nat) :
    multiByteInfo (pre ++ B) (pre.length + pos) v bc =
      { multiByteInfo B pos v bc with start_pos := pre.length + pos } := by
  unfold multiByteInfo
  have e : pre.length + pos + bc = pre.length + (pos + bc) := by omega
  simp only [contBytes_shift, byteAt_append_right, List.length_append, e]
  cases v with
  | false =>
    simp only [Bool.false_eq_true, if_false]
    split_ifs with h1 h2 h2 <;> first | rfl | omega
  | true =>
    simp only [if_true]
    split_ifs with h1 h2 h2
    · rfl
    · omega
    · omega
    · cases hfc : foldCont (byteAt B pos &&& ((1 <<< (7 - bc)) - 1)) (contBytes B pos bc) <;>
        simp [hfc]

/-- Full decoding shifts across a prefix, moving only start_pos. -/
theorem extract_shift (pre B : List Nat) (pos : Nat) (u v : Bool) :
    extract_char_info (pre ++ B) (pre.length + pos) u v =
      { extract_char_info B pos u v with start_pos := pre.length + pos } := by
  unfold extract_char_info
  simp only [byteAt_append_right, List.length_append]
  split_ifs with h1 h2 h3 h4 h5 <;>
    first
      | rfl
      | omega
      | exact multiByteInfo_shift pre B pos v 2
      | exact multiByteInfo_shift pre B pos v 3
      | exact multiByteInfo_shift pre B pos v 4

/-- Character counting shifts across a prefix. -/
theorem count_chars_shift (pre B : List Nat) (u v : Bool) :
    ∀ n pos, B.length - pos ≤ n →
      count_chars (pre ++ B) u v (pre.length + pos) = count_chars B u v pos := by
  intro n
  induction n with
  | zero =>
    intro pos h
    unfold count_chars
    rw [dif_neg (by simp only [List.length_append]; omega), dif_neg (by omega)]
  | succ n ih =>
    intro pos h
    by_cases hp : pos < B.length
    · have hb := one_le_byte_count B pos u v
      have heq := congrArg CharInfo.byte_count (extract_shift pre B pos u v)
      unfold count_chars
      rw [dif_pos (by simp only [List.length_append]; omega), dif_pos hp]
      simp only at heq
      rw [heq]
      have e : pre.length + pos + (extract_char_info B pos u v).byte_count =
          pre.length + (pos + (extract_char_info B pos u v).byte_count) := by omega
      rw [e, ih _ (by omega)]
    · unfold count_chars
      rw [dif_neg (by simp only [List.length_append]; omega), dif_neg hp]

/-- Iterator advancing shifts across a prefix. -/
theorem advance_n_shift (pre B : List Nat) (u v : Bool) :
    ∀ n pos, advance_n (pre ++ B) u v (pre.length + pos) n =
      pre.length + advance_n B u v pos n := by
  intro n
  induction n with
  | zero => intro pos; rfl
  | succ n ih =>
    intro pos
    unfold advance_n
    by_cases hp : pos < B.length
    · have heq := congrArg CharInfo.byte_count (extract_shift pre B pos u v)
      simp only at heq
      rw [if_pos (by simp only [List.length_append]; omega), if_pos hp, heq]
      have e : pre.length + pos + (extract_char_info B pos u v).byte_count =
          pre.length + (pos + (extract_char_info B pos u v).byte_count) := by omega
      rw [e, ih]
    · rw [if_neg (by simp only [List.length_append]; omega), if_neg hp]

/-- Last-character traversal shifts across a prefix, up to codepoints. -/
theorem back_loop_shift (pre B : List Nat) (u v : Bool) :
    ∀ n pos cur1 cur2, B.length - pos ≤ n → cur1.codepoint = cur2.codepoint →
      (back_loop (pre ++ B) u v (pre.length + pos) cur1).codepoint =
        (back_loop B u v pos cur2).codepoint := by
  intro n
  induction n with
  | zero =>
    intro pos cur1 cur2 h hc
    unfold back_loop
    rw [dif_neg (by simp only [List.length_append]; omega), dif_neg (by omega)]
    exact hc
  | succ n ih =>
    intro pos cur1 cur2 h hc
    by_cases hp : pos < B.length
    · have hb := one_le_byte_count B pos u v
      have heq := congrArg CharInfo.byte_count (extract_shift pre B pos u v)
      have hcp := congrArg CharInfo.codepoint (extract_shift pre B pos u v)
      simp only at heq hcp
      unfold back_loop
      rw [dif_pos (by simp only [List.length_append]; omega), dif_pos hp, heq]
      have e : pre.length + pos + (extract_char_info B pos u v).byte_count =
          pre.length + (pos + (extract_char_info B pos u v).byte_count) := by omega
      rw [e]
      exact ih _ _ _ (by omega) hcp
    · unfold back_loop
      rw [dif_neg (by simp only [List.length_append]; omega), dif_neg hp]
      exact hc

/-- Prepending the canonical BOM always makes detection succeed. -/
theorem detect_bom_bom_append (B : List Nat) :
    detect_bom ([0xEF, 0xBB, 0xBF] ++ B) = ⟨true, 3⟩ := by
  have h0 : byteAt ([0xEF, 0xBB, 0xBF] ++ B) 0 = 0xEF := by
    rw [byteAt_append_left _ _ 0 (by norm_num)]
    decide
  have h1 : byteAt ([0xEF, 0xBB, 0xBF] ++ B) 1 = 0xBB := by
    rw [byteAt_append_left _ _ 1 (by norm_num)]
    decide
  have h2 : byteAt ([0xEF, 0xBB, 0xBF] ++ B) 2 = 0xBF := by
    rw [byteAt_append_left _ _ 2 (by norm_num)]
    decide
  unfold detect_bom
  rw [if_pos ⟨by simp, h0, h1, h2⟩]

/-- C6: prepending the 3-byte BOM to a BOM-free buffer changes neither the
character count nor the codepoints seen by front, back and indexed access;
and a buffer containing only the BOM is empty with length 0. -/
theorem bom_transparency :
    (∀ (B : List Nat) (u v : Bool), (detect_bom B).found = false →
      length ([0xEF, 0xBB, 0xBF] ++ B) u v = length B u v ∧
      (front ([0xEF, 0xBB, 0xBF] ++ B) u v).map CharInfo.codepoint =
        (front B u v).map CharInfo.codepoint ∧
      (back ([0xEF, 0xBB, 0xBF] ++ B) u v).map CharInfo.codepoint =
        (back B u v).map CharInfo.codepoint ∧
      (∀ i, i < length B u v →
        (at' ([0xEF, 0xBB, 0xBF] ++ B) i u v).map CharInfo.codepoint =
          (at' B i u v).map CharInfo.codepoint)) ∧
    (∀ u v, empty [0xEF, 0xBB, 0xBF] u v = true ∧
      length [0xEF, 0xBB, 0xBF] u v = 0) := by
  constructor
  · intro B u v hB
    have hsB : bomStart B = 0 := by simp [bomStart, hB]
    have hsB' : bomStart ([0xEF, 0xBB, 0xBF] ++ B) = 3 := by
      unfold bomStart
      rw [detect_bom_bom_append]
      rfl
    have hlen' : ([0xEF, 0xBB, 0xBF] ++ B).length = 3 + B.length := by
      simp
      omega
    refine ⟨?_, ?_, ?_, ?_⟩
    · unfold length
      rw [hsB, hsB']
      have h := count_chars_shift [0xEF, 0xBB, 0xBF] B u v B.length 0 (by omega)
      simpa using h
    · unfold front
      rw [hsB, hsB', hlen']
      by_cases hb0 : B.length = 0
      · rw [if_pos (by omega), if_pos (by omega)]
      · rw [if_neg (by omega), if_neg (by omega)]
        have h := congrArg CharInfo.codepoint (extract_shift [0xEF, 0xBB, 0xBF] B 0 u v)
        simpa using h
    · unfold back
      rw [hsB, hsB', hlen']
      by_cases hb0 : B.length = 0
      · rw [if_pos (by omega), if_pos (by omega)]
      · rw [if_neg (by omega), if_neg (by omega)]
        have h := back_loop_shift [0xEF, 0xBB, 0xBF] B u v B.length 0
          default default (by omega) rfl
        simpa using h
    · intro i _
      unfold at'
      rw [hsB, hsB', hlen']
      have hadv : advance_n ([0xEF, 0xBB, 0xBF] ++ B) u v 3 i =
          3 + advance_n B u v 0 i := by
        simpa using advance_n_shift [0xEF, 0xBB, 0xBF] B u v i 0
      rw [hadv]
      by_cases hend : advance_n B u v 0 i = B.length
      · rw [if_pos (by omega), if_pos hend]
      · rw [if_neg (by omega), if_neg hend]
        have h := congrArg CharInfo.codepoint
          (extract_shift [0xEF, 0xBB, 0xBF] B (advance_n B u v 0 i) u v)
        simpa using h
  · intro u v
    refine ⟨rfl, ?_⟩
    unfold length
    rw [show bomStart [0xEF, 0xBB, 0xBF] = 3 from rfl]
    unfold count_chars
    rw [dif_neg (by norm_num)]

/-- Witness for C6 at the concrete BOM-free buffer holding one ASCII byte. -/
theorem bom_transparency_witness :
    length ([0xEF, 0xBB, 0xBF] ++ [0x48]) true true = length [0x48] true true :=
  (bom_transparency.1 [0x48] true true (by decide)).1

/-- Absorption of a coarser bit mask. -/
theorem and_absorb (x A S : Nat) (h : A &&& S = S) : x &&& S = x &&& A &&& S := by
  rw [Nat.and_assoc, h]

/-- In-bounds decoding of an ASCII byte, or of any byte in ASCII mode. -/
theorem extract_ascii_char (input : List Nat) (pos : Nat) (u v : Bool)
    (h1 : pos < input.length) (h2 : u = false ∨ byteAt input pos < 0x80) :
    extract_char_info input pos u v =
      { start_pos := pos, byte_count := 1, codepoint := byteAt input pos,
        is_ascii := true, is_valid_utf8 := true, is_bom := false } := by
  unfold extract_char_info
  rw [if_neg (by omega), if_pos h2]

/-- Decoding at a recognised multi-byte lead byte hands over to the
multi-byte tail with the matching expected length. -/
theorem extract_multi (input : List Nat) (pos : Nat) (v : Bool) (bc : Nat)
    (hp : pos < input.length)
    (hbc : (bc = 2 ∧ byteAt input pos &&& 0xE0 = 0xC0) ∨
           (bc = 3 ∧ byteAt input pos &&& 0xF0 = 0xE0) ∨
           (bc = 4 ∧ byteAt input pos &&& 0xF8 = 0xF0)) :
    extract_char_info input pos true v = multiByteInfo input pos v bc := by
  unfold extract_char_info
  rcases hbc with ⟨rfl, hm⟩ | ⟨rfl, hm⟩ | ⟨rfl, hm⟩
  · have hge : 0xC0 ≤ byteAt input pos := by
      have ha : byteAt input pos &&& 0xE0 ≤ byteAt input pos := Nat.and_le_left
      omega
    rw [if_neg (by omega),
      if_neg (by rintro (h | h) <;> first | exact absurd h (by decide) | omega), if_pos hm]
  · have hE : byteAt input pos &&& 0xE0 = 0xE0 := by
      rw [and_absorb (byteAt input pos) 0xF0 0xE0 (by decide), hm]
      decide
    have hge : 0xE0 ≤ byteAt input pos := by
      have ha : byteAt input pos &&& 0xF0 ≤ byteAt input pos := Nat.and_le_left
      omega
    rw [if_neg (by omega),
      if_neg (by rintro (h | h) <;> first | exact absurd h (by decide) | omega),
      if_neg (by rw [hE]; decide), if_pos hm]
  · have hE : byteAt input pos &&& 0xE0 = 0xE0 := by
      rw [and_absorb (byteAt input pos) 0xF8 0xE0 (by decide), hm]
      decide
    have hF : byteAt input pos &&& 0xF0 = 0xF0 := by
      rw [and_absorb (byteAt input pos) 0xF8 0xF0 (by decide), hm]
      decide
    have hge : 0xF0 ≤ byteAt input pos := by
      have ha : byteAt input pos &&& 0xF8 ≤ byteAt input pos := Nat.and_le_left
      omega
    rw [if_neg (by omega),
      if_neg (by rintro (h | h) <;> first | exact absurd h (by decide) | omega),
      if_neg (by rw [hE]; decide), if_neg (by rw [hF]; decide), if_pos hm]

/-- Validating fold succeeds on all-continuation byte lists and computes the
left fold of the accumulation step. -/
theorem foldCont_all (l : List Nat) :
    ∀ acc, (∀ b ∈ l, b &&& 0xC0 = 0x80) →
      foldCont acc l =
        some (l.foldl (fun a b => (a <<< 6) ||| (b &&& 0x3F)) acc) := by
  induction l with
  | nil => intro acc _; rfl
  | cons b rest ih =>
    intro acc hall
    unfold foldCont
    rw [if_pos (hall b (by simp)), ih _ (fun x hx => hall x (by simp [hx]))]
    rfl

/-- Low-bit masking is reduction modulo a power of two. -/
theorem low_bits_eq_mod (x k : Nat) : x &&& ((1 <<< k) - 1) = x % 2 ^ k := by
  rw [Nat.one_shiftLeft]
  exact Nat.and_pow_two_sub_one_eq_mod x k

/-- C4: on every well-formed multi-byte sequence the decoder reconstructs
the codepoint by keeping the low (7 - byte_count) bits of the lead byte and
folding in each continuation byte's low 6 bits via (acc << 6) | (byte & 0x3F);
and the concrete decode table holds: "H" is an ASCII 1-byte unit with
codepoint 0x48, the 3-byte CJK character decodes to codepoint 0x4E16 and the
4-byte emoji globe character to codepoint 0x1F30D. -/
theorem codepoint_reconstruction :
    (∀ (input : List Nat) (pos bc : Nat),
      pos < input.length →
      ((bc = 2 ∧ byteAt input pos &&& 0xE0 = 0xC0) ∨
       (bc = 3 ∧ byteAt input pos &&& 0xF0 = 0xE0) ∨
       (bc = 4 ∧ byteAt input pos &&& 0xF8 = 0xF0)) →
      pos + bc ≤ input.length →
      (∀ b ∈ contBytes input pos bc, b &&& 0xC0 = 0x80) →
      extract_char_info input pos true true =
        { start_pos := pos, byte_count := bc,
          codepoint := utf8_fold_spec (byteAt input pos) bc (contBytes input pos bc),
          is_ascii := false, is_valid_utf8 := true, is_bom := false }) ∧
    extract_char_info [0x48] 0 true true =
      { start_pos := 0, byte_count := 1, codepoint := 0x48,
        is_ascii := true, is_valid_utf8 := true, is_bom := false } ∧
    extract_char_info [0xE4, 0xB8, 0x96] 0 true true =
      { start_pos := 0, byte_count := 3, codepoint := 0x4E16,
        is_ascii := false, is_valid_utf8 := true, is_bom := false } ∧
    extract_char_info [0xF0, 0x9F, 0x8C, 0x8D] 0 true true =
      { start_pos := 0, byte_count := 4, codepoint := 0x1F30D,
        is_ascii := false, is_valid_utf8 := true, is_bom := false } := by
  refine ⟨?_, by decide, by decide, by decide⟩
  intro input pos bc hp hbc hlen hcont
  rw [extract_multi input pos true bc hp hbc]
  unfold multiByteInfo
  rw [if_pos rfl, if_neg (by omega), foldCont_all _ _ hcont]
  dsimp only
  unfold utf8_fold_spec
  rw [low_bits_eq_mod]

/-- Witness for C4's general reconstruction at the concrete 3-byte CJK
character. -/
theorem codepoint_reconstruction_witness :
    extract_char_info [0xE4, 0xB8, 0x96] 0 true true =
      { start_pos := 0, byte_count := 3,
        codepoint := utf8_fold_spec (byteAt [0xE4, 0xB8, 0x96] 0) 3
          (contBytes [0xE4, 0xB8, 0x96] 0 3),
        is_ascii := false, is_valid_utf8 := true, is_bom := false } :=
  codepoint_reconstruction.1 [0xE4, 0xB8, 0x96] 0 3 (by decide)
    (by decide) (by decide) (by decide)

/-- In-bounds byte reads return elements of the buffer. -/
theorem byteAt_mem (input : List Nat) (pos : Nat) (h : pos < input.length) :
    byteAt input pos ∈ input := by
  unfold byteAt
  rw [List.getD_eq_getElem input 0 h]
  exact List.getElem_mem h

/-- Buffers of bytes below 0x80 never carry a BOM. -/
theorem detect_bom_ascii (input : List Nat) (h : ∀ b ∈ input, b < 0x80) :
    (detect_bom input).found = false := by
  unfold detect_bom
  split
  · rename_i hc
    exfalso
    have h0 := h _ (byteAt_mem input 0 (by omega))
    omega
  · rfl

/-- When every in-bounds decode step consumes exactly one byte, the
character count is the byte count of the traversed span. -/
theorem count_chars_one_step (input : List Nat) (u v : Bool)
    (hstep : ∀ pos, pos < input.length →
      (extract_char_info input pos u v).byte_count = 1) :
    ∀ n pos, input.length - pos ≤ n → pos ≤ input.length →
      count_chars input u v pos = input.length - pos := by
  intro n
  induction n with
  | zero =>
    intro pos h hle
    unfold count_chars
    rw [dif_neg (by omega)]
    omega
  | succ n ih =>
    intro pos h hle
    by_cases hp : pos < input.length
    · unfold count_chars
      rw [dif_pos hp, hstep pos hp, ih (pos + 1) (by omega) (by omega)]
      omega
    · unfold count_chars
      rw [dif_neg hp]
      omega

/-- Multi-byte tail at expected length 3 with two valid continuation bytes
in bounds consumes exactly 3 bytes. -/
theorem multiByteInfo_three_bc (input : List Nat) (pos : Nat) (v : Bool)
    (hlen : pos + 3 ≤ input.length)
    (hc1 : byteAt input (pos + 1) &&& 0xC0 = 0x80)
    (hc2 : byteAt input (pos + 2) &&& 0xC0 = 0x80) :
    (multiByteInfo input pos v 3).byte_count = 3 := by
  have hcb : contBytes input pos 3 =
      [byteAt input (pos + 1), byteAt input (pos + 2)] := by
    unfold contBytes
    rw [show List.range (3 - 1) = [0, 1] from rfl]
    simp only [List.map]
  unfold multiByteInfo
  cases v with
  | true =>
    rw [if_pos rfl, if_neg (by omega), hcb]
    unfold foldCont
    rw [if_pos hc1]
    unfold foldCont
    rw [if_pos hc2]
    rfl
  | false =>
    rw [if_neg (by decide), if_pos (by omega)]

/-- Decoding at the start of a well-formed 3-byte character consumes exactly
3 bytes in UTF-8 mode, with or without validation. -/
theorem extract_three_bc (input : List Nat) (pos : Nat) (v : Bool)
    (hp : pos < input.length)
    (hm : byteAt input pos &&& 0xF0 = 0xE0)
    (hlen : pos + 3 ≤ input.length)
    (hc1 : byteAt input (pos + 1) &&& 0xC0 = 0x80)
    (hc2 : byteAt input (pos + 2) &&& 0xC0 = 0x80) :
    (extract_char_info input pos true v).byte_count = 3 := by
  rw [extract_multi input pos v 3 hp (Or.inr (Or.inl ⟨rfl, hm⟩))]
  exact multiByteInfo_three_bc input pos v hlen hc1 hc2

/-- Traversing a concatenation of well-formed 3-byte blocks counts one
character per block. -/
theorem count_chars_flatten (v : Bool) :
    ∀ blocks : List (List Nat), (∀ blk ∈ blocks, isThreeByteChar blk) →
      count_chars blocks.flatten true v 0 = blocks.length := by
  intro blocks
  induction blocks with
  | nil =>
    intro _
    unfold count_chars
    rw [dif_neg (by simp)]
    rfl
  | cons blk rest ih =>
    intro hall
    obtain ⟨hl3, hm, hc1, hc2⟩ := hall blk (by simp)
    have hflat : (blk :: rest).flatten = blk ++ rest.flatten := rfl
    rw [hflat]
    have hlen : (blk ++ rest.flatten).length = 3 + rest.flatten.length := by
      simp [hl3]
    have hb0 : byteAt (blk ++ rest.flatten) 0 = byteAt blk 0 :=
      byteAt_append_left _ _ 0 (by omega)
    have hb1 : byteAt (blk ++ rest.flatten) 1 = byteAt blk 1 :=
      byteAt_append_left _ _ 1 (by omega)
    have hb2 : byteAt (blk ++ rest.flatten) 2 = byteAt blk 2 :=
      byteAt_append_left _ _ 2 (by omega)
    have hbc : (extract_char_info (blk ++ rest.flatten) 0 true v).byte_count = 3 := by
      apply extract_three_bc
      · omega
      · rw [hb0]; exact hm
      · omega
      · rw [show (0 : Nat) + 1 = 1 from rfl, hb1]; exact hc1
      · rw [show (0 : Nat) + 2 = 2 from rfl, hb2]; exact hc2
    unfold count_chars
    rw [dif_pos (by omega), hbc, show (0 : Nat) + 3 = 3 from rfl]
    have hshift := count_chars_shift blk rest.flatten true v rest.flatten.length 0
      (by omega)
    rw [hl3] at hshift
    rw [show (3 : Nat) + 0 = 3 from rfl] at hshift
    rw [hshift, ih (fun b hb => hall b (by simp [hb]))]
    rfl

/-- Concatenating 3-byte blocks yields three bytes per block. -/
theorem flatten_length_three :
    ∀ blocks : List (List Nat), (∀ blk ∈ blocks, isThreeByteChar blk) →
      blocks.flatten.length = 3 * blocks.length := by
  intro blocks
  induction blocks with
  | nil => intro _; rfl
  | cons blk rest ih =>
    intro hall
    have hl3 := (hall blk (by simp)).1
    have hr := ih (fun b hb => hall b (by simp [hb]))
    simp only [List.flatten_cons, List.length_append, List.length_cons, hl3, hr]
    omega

/-- C7 counterexample: the BOM-only buffer is a buffer of exactly one
3-byte multi-byte character with no ASCII bytes, yet its UTF-8 length is not
1 and its ASCII-mode length is not 3, because the length functions skip the
BOM. -/
theorem length_three_byte_bom_counterexample :
    ¬ (length [0xEF, 0xBB, 0xBF] true true = 1 ∧
       length [0xEF, 0xBB, 0xBF] false true = 3) := by
  intro hcl
  have h0 : length [0xEF, 0xBB, 0xBF] true true = 0 := by
    unfold length
    rw [show bomStart [0xEF, 0xBB, 0xBF] = 3 from rfl]
    unfold count_chars
    rw [dif_neg (by norm_num)]
  rw [h0] at hcl
  exact absurd hcl.1 (by decide)

/-- C7 (amended): for buffers of only ASCII bytes, length in UTF-8 mode and
in ASCII mode both equal the byte length; for buffers that are a
concatenation of N well-formed 3-byte characters, none of which is ASCII,
and that do not begin with the BOM, length in UTF-8 mode is N while length
in ASCII mode is 3N. -/
theorem length_byte_relationship :
    (∀ (input : List Nat) (v : Bool), (∀ b ∈ input, b < 0x80) →
      length input true v = input.length ∧ length input false v = input.length) ∧
    (∀ (blocks : List (List Nat)) (v : Bool),
      (∀ blk ∈ blocks, isThreeByteChar blk) →
      (detect_bom blocks.flatten).found = false →
      length blocks.flatten true v = blocks.length ∧
      length blocks.flatten false v = 3 * blocks.length) := by
  constructor
  · intro input v h
    have hs : bomStart input = 0 := by
      simp [bomStart, detect_bom_ascii input h]
    constructor
    · unfold length
      rw [hs]
      have := count_chars_one_step input true v
        (fun pos hp => by
          rw [extract_ascii_char input pos true v hp
            (Or.inr (h _ (byteAt_mem input pos hp)))])
        input.length 0 (by omega) (by omega)
      omega
    · unfold length
      rw [hs]
      have := count_chars_one_step input false v
        (fun pos hp => by
          rw [extract_ascii_char input pos false v hp (Or.inl rfl)])
        input.length 0 (by omega) (by omega)
      omega
  · intro blocks v hall hnb
    have hs : bomStart blocks.flatten = 0 := by simp [bomStart, hnb]
    constructor
    · unfold length
      rw [hs]
      exact count_chars_flatten v blocks hall
    · unfold length
      rw [hs]
      have := count_chars_one_step blocks.flatten false v
        (fun pos hp => by
          rw [extract_ascii_char blocks.flatten pos false v hp (Or.inl rfl)])
        blocks.flatten.length 0 (by omega) (by omega)
      rw [this, flatten_length_three blocks hall]
      omega

/-- Witness for the amended C7: a two-byte ASCII buffer, and a one-block
3-byte character buffer. -/
theorem length_byte_relationship_witness :
    length [0x48, 0x69] true true = ([0x48, 0x69] : List Nat).length ∧
    length ([[0xE4, 0xB8, 0x96]] : List (List Nat)).flatten true true =
      ([[0xE4, 0xB8, 0x96]] : List (List Nat)).length :=
  ⟨(length_byte_relationship.1 [0x48, 0x69] true (by decide)).1,
   (length_byte_relationship.2 [[0xE4, 0xB8, 0x96]] true (by decide) (by decide)).1⟩

end u8scan
